import Mathlib

/-!
Verification development for the whiteboard voice-facilitator repository.

The definitions below are a shallow embedding, in Lean, of the functions of
the source that the verified properties talk about:

* the task-matching and task-moving logic of `moveTaskByText`,
  `generateElementPosition`, `getWhiteboardInfo` and `processToolCall`
  (second document of `src/unnamed/part_000`, the full version of
  `whiteboard-tools.ts`);
* the tool-call dispatch of the `onToolCall` handler in
  `src/src/hooks/useGeminiLive.ts`;
* the capture framer `AudioProcessingWorklet` of
  `src/src/lib/audio-worklets.ts`;
* the `AudioRecorder.start` lifecycle of `src/unnamed/part_003`
  (`audio-recorder.ts`);
* the base64 framing of `src/src/lib/audio-utils.ts`.

JavaScript numbers are modelled as rationals (`ℚ`); the scores, coordinates
and divisions occurring in the embedded code are small exact values for which
this model coincides with IEEE doubles.  JavaScript strings are modelled over
Lean `String` with ASCII versions of `toLowerCase`, `trim`, `split(/\s+/)`
and `includes` (every string occurring in the sources and the theorems below
is ASCII).
-/

/-! ### JavaScript string primitives -/

/-- ASCII model of the character class `\s` used by `split(/\s+/)`. -/
def isWsChar (c : Char) : Bool :=
  c = ' ' || c = '\t' || c = '\n' || c = '\r' || c = '\x0b' || c = '\x0c'

/-- Worker for `jsSplitWs`.  `prevWs` records whether the previous character
belonged to a whitespace run (so that a maximal run produces a single split
point), `cur` is the reversed accumulator of the current piece. -/
def jsSplitWsAux : Bool → List Char → List Char → List String
  | _, cur, [] => [String.mk cur.reverse]
  | prevWs, cur, c :: rest =>
    if isWsChar c then
      if prevWs then jsSplitWsAux true cur rest
      else String.mk cur.reverse :: jsSplitWsAux true [] rest
    else jsSplitWsAux false (c :: cur) rest

/-- Model of `s.split(/\s+/)` from JavaScript: pieces between maximal
whitespace runs, including an empty leading (trailing) piece when the string
starts (ends) with whitespace, and `[""]` on the empty string. -/
def jsSplitWs (s : String) : List String :=
  jsSplitWsAux false [] s.toList

/-- ASCII model of `String.prototype.toLowerCase`. -/
def jsToLower (s : String) : String := String.mk (s.toList.map Char.toLower)

/-- ASCII model of `String.prototype.toUpperCase`. -/
def jsToUpper (s : String) : String := String.mk (s.toList.map Char.toUpper)

/-- ASCII model of `String.prototype.trim`: strip whitespace at both ends. -/
def jsTrim (s : String) : String :=
  String.mk (((s.toList.dropWhile isWsChar).reverse.dropWhile isWsChar).reverse)

/-- Whether the first character list is an initial segment of the second. -/
def leadsList : List Char → List Char → Bool
  | [], _ => true
  | _ :: _, [] => false
  | a :: as, b :: bs => a = b && leadsList as bs

/-- Whether `sub` occurs as a contiguous segment of `s`. -/
def containsSeg (sub : List Char) : List Char → Bool
  | [] => leadsList sub []
  | c :: rest => leadsList sub (c :: rest) || containsSeg sub rest

/-- Model of `s.includes(sub)` from JavaScript: substring containment. -/
def jsIncludes (s sub : String) : Bool :=
  containsSeg sub.toList s.toList

/-! ### Board data model

`WhiteboardElement` is a tagged union in the source (`sticky`, `flow`,
`diagram`, `embed`); `moveTaskByText` and its callers only read the fields
`id`, `type`, `x`, `y`, `text`, `color`, so the embedding carries exactly
these.  The object spread `{...el, x, y, color}` used by the source when it
moves an element rewrites only `x`, `y` and `color`, which the structure
update below mirrors. -/

structure Element where
  id : String
  etype : String
  x : ℚ
  y : ℚ
  text : String
  color : String
deriving DecidableEq

structure WhiteboardData where
  elements : List Element
deriving DecidableEq

/-- The three Kanban columns accepted by the `move_task` tool schema
(`enum: ["todo", "inprogress", "done"]`). -/
inductive Col
  | todo
  | inprogress
  | done
deriving DecidableEq

/-- The string name of a column, as it appears in the tool arguments. -/
def colName : Col → String
  | .todo => "todo"
  | .inprogress => "inprogress"
  | .done => "done"

/-- Embedding of `getCurrentColumn` inside `moveTaskByText`: derive the
column of an element from its x coordinate. -/
def getCurrentColumn (e : Element) : String :=
  if 60 ≤ e.x ∧ e.x ≤ 380 then "todo"
  else if 420 ≤ e.x ∧ e.x ≤ 740 then "inprogress"
  else if 780 ≤ e.x ∧ e.x ≤ 1100 then "done"
  else "other"

/-- Embedding of `generateElementPosition`: the fixed column x coordinates
(`todo` 100, `inprogress` 460, `done` 820) and `y = 180 + index * 90`. -/
def generateElementPosition (index : ℕ) (column : Col) : ℚ × ℚ :=
  let colX : ℚ :=
    match column with
    | .todo => 100
    | .inprogress => 460
    | .done => 820
  (colX, 180 + index * 90)

/-! ### The matching algorithm of `moveTaskByText` -/

/-- The sticky tasks considered by `moveTaskByText`:
`el.type === "sticky" && el.y < 650` (summary notes sit at y ≥ 650). -/
def taskStickies (d : WhiteboardData) : List Element :=
  d.elements.filter (fun el => el.etype = "sticky" ∧ el.y < 650)

/-- Embedding of the per-candidate score computed inside the `map` of
`moveTaskByText`.  Note that the search phrase is tokenized with the
`word.length > 2` filter but the candidate's own words (`taskWords`) are
split without any length filter, exactly as in the source. -/
def candScore (search : String) (target : Col) (el : Element) : ℚ :=
  let searchTextLower := jsTrim (jsToLower search)
  let searchWords := (jsSplitWs searchTextLower).filter (fun w => 2 < w.length)
  let taskTextLower := jsTrim (jsToLower el.text)
  let taskWords := jsSplitWs taskTextLower
  let base : ℚ :=
    if taskTextLower = searchTextLower then 100
    else if jsIncludes taskTextLower searchTextLower then 80
    else if jsIncludes searchTextLower taskTextLower then 70
    else
      let matchingWords := searchWords.filter (fun sw =>
        taskWords.any (fun tw => jsIncludes tw sw || jsIncludes sw tw))
      if 0 < matchingWords.length then
        ((matchingWords.length : ℚ) / (max searchWords.length taskWords.length : ℕ)) * 60
      else 0
  if getCurrentColumn el ≠ colName target then base + 10 else base

/-- A scored candidate, as built by `moveTaskByText`. -/
structure Cand where
  task : Element
  score : ℚ
  currentColumn : String
deriving DecidableEq

/-- Embedding of `candidatesWithScores`: score every sticky task and keep
those with `score > 20` (in original order). -/
def candidatesWithScores (d : WhiteboardData) (search : String) (target : Col) :
    List Cand :=
  ((taskStickies d).map
      (fun el => Cand.mk el (candScore search target el) (getCurrentColumn el))).filter
    (fun c => 20 < c.score)

/-- The winner of the stable descending sort by score followed by taking
index 0: the first candidate attaining the maximal score.  (JavaScript's
`Array.prototype.sort` is stable, so ties keep original order.) -/
def pickBest : List Cand → Option Cand
  | [] => none
  | c :: cs => some (cs.foldl (fun best x => if best.score < x.score then x else best) c)

/-- The canonical color of a column (`todo` yellow, `inprogress` orange,
`done` green), as in the conditional chain of `moveTaskByText`. -/
def canonicalColor : Col → String
  | .todo => "yellow"
  | .inprogress => "orange"
  | .done => "green"

/-- Core of `moveTaskByText`.  The source returns the incoming
`currentData` object itself (same reference) on its two no-move paths and a
freshly built object otherwise; the caller `processToolCall` distinguishes
the two cases by reference inequality (`moveResult !== currentData`).  The
embedding makes that distinction explicit: `none` stands for the two
`return currentData` paths, `some` for a freshly built snapshot. -/
def moveTaskCore (d : WhiteboardData) (taskText : String) (target : Col) :
    Option WhiteboardData :=
  match pickBest (candidatesWithScores d taskText target) with
  | none => none
  | some best =>
    if best.currentColumn = colName target then none
    else
      let targetX := (generateElementPosition 0 target).1
      let tasksInTargetColumn := d.elements.filter (fun el =>
        el.id ≠ best.task.id ∧ |el.x - targetX| < 50 ∧ 180 ≤ el.y ∧ el.y < 650)
      let newY : ℚ := 180 + tasksInTargetColumn.length * 90
      let newColor := canonicalColor target
      some ⟨d.elements.map (fun el =>
        if el.id = best.task.id then
          { el with x := targetX, y := newY, color := newColor }
        else el)⟩

/-- Embedding of `moveTaskByText` (the `reasoning` argument is only
logged by the source and does not influence the result). -/
def moveTaskByText (d : WhiteboardData) (taskText : String) (target : Col)
    (_reasoning : String) : WhiteboardData :=
  (moveTaskCore d taskText target).getD d

/-! ### `getWhiteboardInfo` and `processToolCall` -/

/-- Result of `getWhiteboardInfo` (the source also projects each matching
task to `{id, text, currentColumn, x, y, color}`; the embedding keeps the
matched elements themselves, which carry the same information). -/
structure WhiteboardInfo where
  query : String
  searchColumn : String
  totalTasks : ℕ
  matchingTasks : List Element
  todoCount : ℕ
  inprogressCount : ℕ
  doneCount : ℕ

/-- Embedding of `getWhiteboardInfo`: filter stickies by the requested
column's x range (an unrecognized column name leaves the list unfiltered,
like the `switch` with no `default`), then keep those whose lowercased text
contains the lowercased query. -/
def getWhiteboardInfo (d : WhiteboardData) (query : String) (column : Option String) :
    WhiteboardInfo :=
  let allTasks := d.elements.filter (fun el => el.etype = "sticky")
  let filteredTasks :=
    match column with
    | none => allTasks
    | some c =>
      if c = "all" then allTasks
      else if c = "todo" then allTasks.filter (fun el => 60 ≤ el.x ∧ el.x ≤ 380)
      else if c = "inprogress" then allTasks.filter (fun el => 420 ≤ el.x ∧ el.x ≤ 740)
      else if c = "done" then allTasks.filter (fun el => 780 ≤ el.x ∧ el.x ≤ 1100)
      else allTasks
  let queryLower := jsToLower query
  let matching := filteredTasks.filter (fun el => jsIncludes (jsToLower el.text) queryLower)
  { query := query
    searchColumn := column.getD "all"
    totalTasks := allTasks.length
    matchingTasks := matching
    todoCount := (allTasks.filter (fun el => 60 ≤ el.x ∧ el.x ≤ 380)).length
    inprogressCount := (allTasks.filter (fun el => 420 ≤ el.x ∧ el.x ≤ 740)).length
    doneCount := (allTasks.filter (fun el => 780 ≤ el.x ∧ el.x ≤ 1100)).length }

/-- The argument bag of a tool call; the embedding carries the keys the
dispatched operations actually read. -/
structure ToolArgs where
  taskText : String := ""
  targetColumn : Col := .todo
  reasoning : String := ""
  query : String := ""
  column : String := "all"

/-- A tool response: the `success` flag and the human-readable message.  The
constant coaching fields the source attaches alongside (`AI_INSTRUCTION`,
`CONTINUE_MEETING`, ...) carry no per-call information and are elided. -/
structure ToolResponse where
  success : Bool
  message : String
deriving DecidableEq

/-- What `processToolCall` returns: an optional new snapshot (absent when
the board is unchanged) and the response payload. -/
structure ToolCallResult where
  newData : Option WhiteboardData := none
  response : ToolResponse

/-- The Jira tool names recognized by `processToolCall`. -/
def jiraToolNames : List String :=
  ["sync_jira_board", "update_jira_from_standup", "get_team_workload",
   "create_standup_summary"]

/-- Embedding of `processToolCall` (second document of
`src/unnamed/part_000`, lines 1226-1358).  The effectful collaborators are
passed in as functions: `jiraImpl` stands for `await processJiraToolCall`
(network-bound) and `updateImpl` for `processWhiteboardToolCall`; no claim
below depends on their behavior.  In the `move_task` case the source tests
`moveResult !== currentData`, which is exactly the `Option` split of
`moveTaskCore`. -/
def processToolCall (mcpAvailable : Bool)
    (jiraImpl : WhiteboardData → String → ToolArgs → ToolCallResult)
    (updateImpl : WhiteboardData → ToolArgs → WhiteboardData)
    (d : WhiteboardData) (toolName : String) (args : ToolArgs) : ToolCallResult :=
  if jiraToolNames.contains toolName then
    if !mcpAvailable then
      { response := ⟨false,
          "Jira integration is not available. Please configure MCP Atlassian client first."⟩ }
    else jiraImpl d toolName args
  else if toolName = "get_whiteboard_info" then
    let info := getWhiteboardInfo d args.query (some args.column)
    { response := ⟨true, "Found " ++ toString info.matchingTasks.length ++ " matching tasks"⟩ }
  else if toolName = "move_task" then
    match moveTaskCore d args.taskText args.targetColumn with
    | some moveResult =>
      let targetX : ℚ :=
        match args.targetColumn with
        | .todo => 100
        | .inprogress => 460
        | .done => 820
      let movedTask := moveResult.elements.find? (fun el =>
        el.etype = "sticky" ∧ |el.x - targetX| < 50 ∧
          jsIncludes (jsToLower el.text) (jsToLower args.taskText))
      let actualTaskText := (movedTask.map Element.text).getD args.taskText
      { newData := some moveResult
        response := ⟨true,
          "Successfully moved task \"" ++ actualTaskText ++ "\" to " ++
            jsToUpper (colName args.targetColumn) ++ " column"⟩ }
    | none =>
      { response := ⟨false,
          "Could not move task with text \"" ++ args.taskText ++
            "\" - either not found or already in " ++
            jsToUpper (colName args.targetColumn) ++ " column"⟩ }
  else if toolName = "update_whiteboard" then
    { newData := some (updateImpl d args)
      response := ⟨true, "Whiteboard updated successfully"⟩ }
  else
    { response := ⟨false, "Unknown tool: " ++ toolName⟩ }

/-! ### The `onToolCall` dispatcher of `useGeminiLive.ts` -/

/-- One function call of a delivered tool-call batch. -/
structure FunctionCall where
  id : String
  name : String
  args : ToolArgs

/-- Embedding of the `onToolCall` handler of `src/src/hooks/useGeminiLive.ts`
(lines 151-263): for every call of the batch whose name is one of
`update_whiteboard`, `get_whiteboard_info`, `move_task` it sends back exactly
one response (built by `processToolCall` against the current snapshot);
for every other name it only logs `"Unknown function call"` and sends
nothing.  The result lists the `(id, response)` pairs handed to
`sendToolResponse`, in order. -/
def onToolCallResponses (mcpAvailable : Bool)
    (jiraImpl : WhiteboardData → String → ToolArgs → ToolCallResult)
    (updateImpl : WhiteboardData → ToolArgs → WhiteboardData)
    (board : WhiteboardData) (calls : List FunctionCall) :
    List (String × ToolResponse) :=
  calls.flatMap (fun call =>
    if call.name = "update_whiteboard" ∨ call.name = "get_whiteboard_info" ∨
        call.name = "move_task" then
      [(call.id,
        (processToolCall mcpAvailable jiraImpl updateImpl board call.name call.args).response)]
    else [])

/-! ### The capture framer (`AudioProcessingWorklet`)

`src/src/lib/audio-worklets.ts`: each incoming float sample is multiplied by
32768 and stored into an `Int16Array(2048)`; whenever the write index
reaches 2048 the buffer is posted as one chunk and the index reset.  The
`Int16Array` element store applies the ECMAScript `ToInt16` conversion:
truncate toward zero, reduce modulo 2^16, reinterpret as signed. -/

/-- Truncation toward zero of a rational (ECMAScript `ToIntegerOrInfinity`
on finite values). -/
def jsTrunc (q : ℚ) : ℤ := if 0 ≤ q then ⌊q⌋ else ⌈q⌉

/-- ECMAScript `ToInt16` applied to an integer: reduce modulo 2^16 and
reinterpret the result as a signed 16-bit value. -/
def toInt16 (n : ℤ) : ℤ :=
  let m := n % 65536
  if m < 32768 then m else m - 65536

/-- The value stored by `this.buffer[this.bufferWriteIndex++] = float32Array[i] * 32768`:
scale by 32768, then the `Int16Array` store conversion. -/
def convertSample (v : ℚ) : ℤ := toInt16 (jsTrunc (v * 32768))

/-- Framer state: the partially filled buffer (converted samples, in write
order) and the chunks posted so far (oldest first). -/
structure FramerState where
  buf : List ℤ
  emitted : List (List ℤ)
deriving DecidableEq

/-- The worklet's initial state: empty buffer, write index 0. -/
def framerInit : FramerState := ⟨[], []⟩

/-- One iteration of the loop of `processChunk`: convert and store one
sample, then `if (this.bufferWriteIndex >= this.buffer.length) sendAndClearBuffer()`
(the buffer length is the constant 2048). -/
def pushSample (s : FramerState) (v : ℚ) : FramerState :=
  let buf' := s.buf ++ [convertSample v]
  if 2048 ≤ buf'.length then ⟨[], s.emitted ++ [buf']⟩ else ⟨buf', s.emitted⟩

/-- Embedding of `processChunk` on one frame.  (The duplicated
`bufferWriteIndex >= this.buffer.length` check after the loop can never
fire, since the in-loop check already resets the index at 2048.) -/
def processChunk (s : FramerState) (frame : List ℚ) : FramerState :=
  frame.foldl pushSample s

/-- Feeding a sequence of frames to a fresh worklet (`process` skips empty
inputs, which is the identity fold step). -/
def processFrames (frames : List (List ℚ)) : FramerState :=
  frames.foldl processChunk framerInit

/-- Total number of samples in a sequence of frames. -/
def totalSamples (frames : List (List ℚ)) : ℕ :=
  (frames.map List.length).sum

/-- Byte length of a posted chunk: an `Int16Array` element occupies two
bytes, so `slice(0, n).buffer` has `2 * n` bytes. -/
def chunkByteLength (c : List ℤ) : ℕ := 2 * c.length

/-! ### The audio recorder (`AudioRecorder.start`)

`src/unnamed/part_003` (`audio-recorder.ts`): `start()` unconditionally
executes `this.starting = new Promise(async (...) => { this.stream = await
navigator.mediaDevices.getUserMedia(...); ... })` — the promise executor
runs synchronously up to the `getUserMedia` call, which initiates a device
acquisition; at no point does `start()` inspect an existing in-flight
`this.starting`.  The state machine below records exactly that synchronous
prefix: each `start()` invocation installs a fresh `starting` promise
(identified by a counter) and initiates one more `getUserMedia`
acquisition. -/

structure RecorderState where
  starting : Option ℕ
  nextPromiseId : ℕ
  getUserMediaCalls : ℕ
deriving DecidableEq

/-- A freshly constructed recorder: `starting = null`, no acquisitions. -/
def recorderInit : RecorderState := ⟨none, 0, 0⟩

/-- The synchronous effect of one `start()` invocation (while any earlier
`start()` is still unsettled): overwrite `this.starting` with a fresh
promise and initiate one device acquisition. -/
def startInvoke (s : RecorderState) : RecorderState :=
  { starting := some s.nextPromiseId
    nextPromiseId := s.nextPromiseId + 1
    getUserMediaCalls := s.getUserMediaCalls + 1 }

/-! ### Base64 framing (`audio-utils.ts`)

`arrayBufferToBase64` builds a binary string whose code units are exactly
the buffer's bytes and applies the browser builtin `btoa`;
`base64ToArrayBuffer` applies `atob` and reads the code units back.  Bytes
are modelled as naturals `< 256`; the `String.fromCharCode`/`charCodeAt`
steps are the identity on such values, so both functions reduce to the
builtins, which are modelled below from RFC 4648 base64 (the standard the
builtins implement). -/

/-- The base64 alphabet: sextet to character code. -/
def b64char (n : ℕ) : ℕ :=
  if n < 26 then 65 + n
  else if n < 52 then 71 + n
  else if n < 62 then n - 4
  else if n = 62 then 43
  else 47

/-- Inverse of the base64 alphabet: character code to sextet. -/
def b64val (c : ℕ) : ℕ :=
  if 65 ≤ c ∧ c ≤ 90 then c - 65
  else if 97 ≤ c ∧ c ≤ 122 then c - 71
  else if 48 ≤ c ∧ c ≤ 57 then c + 4
  else if c = 43 then 62
  else 63

/-- Model of the browser builtin `btoa` on a list of byte values: RFC 4648
base64 encoding, three bytes to four characters, `'='` (code 61) padding. -/
def btoaBytes : List ℕ → List ℕ
  | [] => []
  | [b1] => [b64char (b1 / 4), b64char (b1 % 4 * 16), 61, 61]
  | [b1, b2] => [b64char (b1 / 4), b64char (b1 % 4 * 16 + b2 / 16),
                 b64char (b2 % 16 * 4), 61]
  | b1 :: b2 :: b3 :: rest =>
    b64char (b1 / 4) :: b64char (b1 % 4 * 16 + b2 / 16) ::
      b64char (b2 % 16 * 4 + b3 / 64) :: b64char (b3 % 64) :: btoaBytes rest

/-- Model of the browser builtin `atob` on a list of character codes:
RFC 4648 base64 decoding, four characters to three bytes, with `'='`
padding handling in the final group. -/
def atobBytes : List ℕ → List ℕ
  | c1 :: c2 :: c3 :: c4 :: rest =>
    if c3 = 61 then [b64val c1 * 4 + b64val c2 / 16]
    else if c4 = 61 then
      [b64val c1 * 4 + b64val c2 / 16, b64val c2 % 16 * 16 + b64val c3 / 4]
    else
      (b64val c1 * 4 + b64val c2 / 16) :: (b64val c2 % 16 * 16 + b64val c3 / 4) ::
        (b64val c3 % 4 * 64 + b64val c4) :: atobBytes rest
  | _ => []

/-- Embedding of `arrayBufferToBase64`: the byte-to-code-unit loop is the
identity on byte values, then `btoa`. -/
def arrayBufferToBase64 (buffer : List ℕ) : List ℕ := btoaBytes buffer

/-- Embedding of `base64ToArrayBuffer`: `atob`, then the code-unit-to-byte
loop, again the identity. -/
def base64ToArrayBuffer (s : List ℕ) : List ℕ := atobBytes s

/-! ### Claim-side (specification) definitions

The definitions of this section follow the words of the specification (for
refinement comparisons against the embedded code above), not the source. -/

/-- The scoring function exactly as claim C1 words it: 100 on exact
case-insensitive equality, 80 when the candidate text contains the search
phrase, 70 for the converse, otherwise
`(count of matching words / max(|search tokens|, |candidate tokens|)) * 60`
where BOTH texts are tokenized into words of length > 2; then +10 when the
candidate's derived column differs from the requested target column. -/
def claimScoreBothFiltered (search : String) (target : Col) (el : Element) : ℚ :=
  let s := jsTrim (jsToLower search)
  let t := jsTrim (jsToLower el.text)
  let sToks := (jsSplitWs s).filter (fun w => 2 < w.length)
  let tToks := (jsSplitWs t).filter (fun w => 2 < w.length)
  let base : ℚ :=
    if t = s then 100
    else if jsIncludes t s then 80
    else if jsIncludes s t then 70
    else ((sToks.countP (fun w => tToks.any (fun v => jsIncludes v w || jsIncludes w v)) : ℚ)
            / (max sToks.length tToks.length : ℕ)) * 60
  base + (if getCurrentColumn el = colName target then 0 else 10)

/-- The scoring function of claim C1 as amended: identical to
`claimScoreBothFiltered` except that the candidate's text is tokenized into
all whitespace-separated words, with no length filter (only the search
phrase's tokens are filtered to length > 2) — which is what the source
does. -/
def amendedScore (search : String) (target : Col) (el : Element) : ℚ :=
  let s := jsTrim (jsToLower search)
  let t := jsTrim (jsToLower el.text)
  let sToks := (jsSplitWs s).filter (fun w => 2 < w.length)
  let tToks := jsSplitWs t
  let base : ℚ :=
    if t = s then 100
    else if jsIncludes t s then 80
    else if jsIncludes s t then 70
    else ((sToks.countP (fun w => tToks.any (fun v => jsIncludes v w || jsIncludes w v)) : ℚ)
            / (max sToks.length tToks.length : ℕ)) * 60
  base + (if getCurrentColumn el = colName target then 0 else 10)

/-- The count named by claim C3: the number of OTHER task-stickies already
in the target column (derived-column membership, sticky type, below the
summary area). -/
def claimTargetColumnCount (d : WhiteboardData) (tgt : Col) (movedId : String) : ℕ :=
  ((taskStickies d).filter
    (fun el => el.id ≠ movedId ∧ getCurrentColumn el = colName tgt)).length

/-- The count the source actually uses for the y position of a moved task:
elements of any type, other than the moved one, whose x is within 50 of the
target column's x and whose y lies in `[180, 650)`. -/
def crowdCount (d : WhiteboardData) (tgt : Col) (movedId : String) : ℕ :=
  (d.elements.filter (fun el =>
    el.id ≠ movedId ∧ |el.x - (generateElementPosition 0 tgt).1| < 50 ∧
      180 ≤ el.y ∧ el.y < 650)).length

/-! ### Concrete boards used by the witnesses and counterexamples -/

/-- Default element used with `List.getD`. -/
def elemDflt : Element := ⟨"", "", 0, 0, "", ""⟩

/-- Sticky of the spec's matching-algorithm test (claim C8), first card. -/
def stickyPay : Element := ⟨"s1", "sticky", 100, 180, "Integrate payment gateway", "yellow"⟩

/-- Sticky of the spec's matching-algorithm test (claim C8), second card. -/
def stickyUnit : Element := ⟨"s2", "sticky", 100, 270, "Write unit tests", "yellow"⟩

/-- The two-card board of the spec's matching-algorithm test. -/
def boardPay : WhiteboardData := ⟨[stickyPay, stickyUnit]⟩

/-- Candidate sticky for the C1 tokenization counterexample: its short words
("is", "at") are kept by the code's candidate tokenization but dropped by
the claim's. -/
def stickyAbc : Element := ⟨"c1", "sticky", 100, 180, "abc is at", "yellow"⟩

/-- Task sticky of the C3 counterexample board. -/
def stickyAlpha : Element := ⟨"A", "sticky", 100, 180, "alpha beta gamma", "yellow"⟩

/-- Flow node of the C3 counterexample board: not a sticky, yet it sits
within 50 of the `inprogress` column x, so the source counts it when
computing the moved task's y. -/
def flowNodeF : Element := ⟨"F", "flow", 460, 200, "", ""⟩

/-- The C3 counterexample board. -/
def boardFlow : WhiteboardData := ⟨[stickyAlpha, flowNodeF]⟩

/-- One-sticky board for the C2 witness (exact-match search, task already
in the target column). -/
def stickyHome : Element := ⟨"w1", "sticky", 100, 180, "alpha beta", "yellow"⟩

/-- Board of the C2 witness. -/
def boardHome : WhiteboardData := ⟨[stickyHome]⟩

/-- A jira-tool stand-in that never changes the board (used to instantiate
the effectful parameter of `processToolCall` in witnesses). -/
def jiraNoop : WhiteboardData → String → ToolArgs → ToolCallResult :=
  fun _ _ _ => { response := ⟨true, ""⟩ }

/-- An `update_whiteboard` stand-in that never changes the board. -/
def updateNoop : WhiteboardData → ToolArgs → WhiteboardData := fun d _ => d

/-- The frame sequence fed to the framer in the C5 witness: one frame of
2048 zero samples. -/
def framesW : List (List ℚ) := [List.replicate 2048 0]
/-- Framer invariant: the write cursor never reaches the buffer size, and
every posted chunk holds exactly 2048 samples. -/
def framerWF (s : FramerState) : Prop :=
  s.buf.length < 2048 ∧ ∀ c ∈ s.emitted, c.length = 2048

/-- Total samples a framer state accounts for. -/
def framerSamples (s : FramerState) : ℕ :=
  2048 * s.emitted.length + s.buf.length

/-! ### Helper lemmas -/

/-- The fold of `pickBest` returns the first element of maximal score: the
input decomposes around the result, everything strictly earlier has a
strictly smaller score, and nothing beats the result. -/
theorem foldBest_spec (cs : List Cand) : ∀ (c : Cand),
    ∃ l₁ l₂,
      c :: cs = l₁ ++ (cs.foldl (fun best x => if best.score < x.score then x else best) c) :: l₂
      ∧ (∀ e ∈ l₁,
          e.score < (cs.foldl (fun best x => if best.score < x.score then x else best) c).score)
      ∧ (∀ e ∈ c :: cs,
          e.score ≤ (cs.foldl (fun best x => if best.score < x.score then x else best) c).score) := by
  induction cs with
  | nil =>
    intro c
    refine ⟨[], [], rfl, by simp, ?_⟩
    intro e he
    simp only [List.mem_singleton] at he
    simp [he]
  | cons x xs ih =>
    intro c
    simp only [List.foldl_cons]
    by_cases hcx : c.score < x.score
    · rw [if_pos hcx]
      obtain ⟨l₁, l₂, hdec, hstrict, hmax⟩ := ih x
      refine ⟨c :: l₁, l₂, ?_, ?_, ?_⟩
      · rw [List.cons_append, ← hdec]
      · intro e he
        rcases List.mem_cons.mp he with rfl | hmem
        · exact lt_of_lt_of_le hcx (hmax x (List.mem_cons_self x xs))
        · exact hstrict e hmem
      · intro e he
        rcases List.mem_cons.mp he with rfl | hmem
        · exact le_of_lt (lt_of_lt_of_le hcx (hmax x (List.mem_cons_self x xs)))
        · exact hmax e hmem
    · rw [if_neg hcx]
      obtain ⟨l₁, l₂, hdec, hstrict, hmax⟩ := ih c
      cases l₁ with
      | nil =>
        simp only [List.nil_append, List.cons.injEq] at hdec
        refine ⟨[], x :: xs, ?_, by simp, ?_⟩
        · rw [List.nil_append, ← hdec.1]
        · intro e he
          rcases List.mem_cons.mp he with rfl | hmem
          · exact hmax e (List.mem_cons_self e xs)
          · rcases List.mem_cons.mp hmem with rfl | hmem'
            · exact le_trans (le_of_not_lt hcx) (hmax c (List.mem_cons_self c xs))
            · exact hmax e (List.mem_cons_of_mem c hmem')
      | cons h₁ t₁ =>
        simp only [List.cons_append, List.cons.injEq] at hdec
        refine ⟨c :: x :: t₁, l₂, ?_, ?_, ?_⟩
        · rw [List.cons_append, List.cons_append, ← hdec.2]
        · intro e he
          have hcr : c.score <
              (List.foldl (fun best x => if best.score < x.score then x else best) c xs).score := by
            have hh := hstrict h₁ (List.mem_cons_self h₁ t₁)
            rwa [← hdec.1] at hh
          rcases List.mem_cons.mp he with rfl | hmem
          · exact hcr
          · rcases List.mem_cons.mp hmem with rfl | hmem'
            · exact lt_of_le_of_lt (le_of_not_lt hcx) hcr
            · exact hstrict e (List.mem_cons_of_mem h₁ hmem')
        · intro e he
          rcases List.mem_cons.mp he with rfl | hmem
          · exact hmax e (List.mem_cons_self e xs)
          · rcases List.mem_cons.mp hmem with rfl | hmem'
            · exact le_trans (le_of_not_lt hcx) (hmax c (List.mem_cons_self c xs))
            · exact hmax e (List.mem_cons_of_mem c hmem')

/-- `pickBest` returns an element of the list of maximal score, the first
such element in list order. -/
theorem pickBest_spec (l : List Cand) (c : Cand) (h : pickBest l = some c) :
    c ∈ l ∧ (∀ e ∈ l, e.score ≤ c.score) ∧
      ∃ l₁ l₂, l = l₁ ++ c :: l₂ ∧ ∀ e ∈ l₁, e.score < c.score := by
  match l with
  | [] => simp [pickBest] at h
  | a :: as =>
    simp only [pickBest, Option.some.injEq] at h
    obtain ⟨l₁, l₂, hdec, hstrict, hmax⟩ := foldBest_spec as a
    rw [h] at hdec hstrict hmax
    refine ⟨?_, hmax, l₁, l₂, hdec, hstrict⟩
    rw [hdec]
    exact List.mem_append_right _ (List.mem_cons_self _ _)

/-! ### Claim C1 -/

/-- C1, counterexample: searching "abc xy" against the sticky "abc is at"
(candidate in `todo`, requested target `done`), the code assigns score 30:
the candidate's short words "is" and "at" are not length-filtered, so the
divisor is max(1, 3) = 3 and the word score is (1/3)·60 = 20, plus the +10
column bonus.  The claim's scoring function — BOTH texts tokenized into
words of length > 2 — gives (1/1)·60 = 60, plus 10 = 70. -/
theorem C1_counterexample :
    candScore "abc xy" Col.done stickyAbc = 30
    ∧ claimScoreBothFiltered "abc xy" Col.done stickyAbc = 70
    ∧ (30 : ℚ) ≠ 70 :=
  ⟨by with_unfolding_all rfl, by with_unfolding_all rfl, by norm_num⟩

/-- C1 as amended: the score the code assigns to each candidate equals the
claim's scoring function with the candidate text tokenized into all
whitespace-separated words (no length filter; only the search phrase's
tokens are filtered to length > 2); the retained candidates are exactly
sticky tasks scoring strictly more than 20 (with that amended score); and
the picked winner is the first retained candidate attaining the maximal
score. -/
theorem C1_score_selection :
    (∀ s tgt el, candScore s tgt el = amendedScore s tgt el)
    ∧ (∀ d s tgt c, c ∈ candidatesWithScores d s tgt →
        c.task ∈ taskStickies d ∧ c.score = amendedScore s tgt c.task ∧ 20 < c.score)
    ∧ (∀ d s tgt c, pickBest (candidatesWithScores d s tgt) = some c →
        c ∈ candidatesWithScores d s tgt
        ∧ (∀ e ∈ candidatesWithScores d s tgt, e.score ≤ c.score)
        ∧ ∃ l₁ l₂, candidatesWithScores d s tgt = l₁ ++ c :: l₂
            ∧ ∀ e ∈ l₁, e.score < c.score) := by
  have heq : ∀ s tgt el, candScore s tgt el = amendedScore s tgt el := by
    intro s tgt el
    simp only [candScore, amendedScore, List.countP_eq_length_filter]
    by_cases hcol : getCurrentColumn el = colName tgt
    · rw [if_neg (fun hne => hne hcol), if_pos hcol, add_zero]
      split_ifs with h1 h2 h3 h4
      · rfl
      · rfl
      · rfl
      · rfl
      · rw [Nat.eq_zero_of_not_pos h4]
        push_cast
        ring1
    · rw [if_pos hcol, if_neg hcol]
      split_ifs with h1 h2 h3 h4
      · rfl
      · rfl
      · rfl
      · rfl
      · rw [Nat.eq_zero_of_not_pos h4]
        push_cast
        ring1
  refine ⟨heq, ?_, ?_⟩
  · intro d s tgt c hc
    simp only [candidatesWithScores, List.mem_filter, List.mem_map] at hc
    obtain ⟨⟨el, helmem, helc⟩, hscore⟩ := hc
    have htask : c.task = el := by rw [← helc]
    have hsc : c.score = candScore s tgt el := by rw [← helc]
    refine ⟨htask ▸ helmem, ?_, of_decide_eq_true hscore⟩
    rw [hsc, htask, heq]
  · intro d s tgt c h
    exact pickBest_spec _ c h

/-- C1 witness: the amended scoring and selection facts, instantiated on the
concrete two-card board `boardPay` with search phrase
"payment gateway integration" and target `done`. -/
theorem C1_score_selection_witness :
    candScore "payment gateway integration" Col.done stickyPay
      = amendedScore "payment gateway integration" Col.done stickyPay
    ∧ (Cand.mk stickyPay 50 "todo").task ∈ taskStickies boardPay
    ∧ (Cand.mk stickyPay 50 "todo").score
        = amendedScore "payment gateway integration" Col.done (Cand.mk stickyPay 50 "todo").task
    ∧ 20 < (Cand.mk stickyPay 50 "todo").score
    ∧ (∀ e ∈ candidatesWithScores boardPay "payment gateway integration" Col.done,
        e.score ≤ (Cand.mk stickyPay 50 "todo").score) := by
  have hlist : candidatesWithScores boardPay "payment gateway integration" Col.done
      = [Cand.mk stickyPay 50 "todo"] := by with_unfolding_all rfl
  have hmem : (Cand.mk stickyPay 50 "todo")
      ∈ candidatesWithScores boardPay "payment gateway integration" Col.done := by
    rw [hlist]; exact List.mem_singleton.mpr rfl
  have hpick : pickBest (candidatesWithScores boardPay "payment gateway integration" Col.done)
      = some (Cand.mk stickyPay 50 "todo") := by
    rw [hlist]; rfl
  obtain ⟨ha, hb, hc⟩ :=
    C1_score_selection.2.1 boardPay "payment gateway integration" Col.done _ hmem
  exact ⟨C1_score_selection.1 "payment gateway integration" Col.done stickyPay, ha, hb, hc,
    (C1_score_selection.2.2 boardPay "payment gateway integration" Col.done _ hpick).2.1⟩

/-! ### Claim C8 -/

/-- C8, counterexample: on the spec's own test input — search
"payment gateway integration" against `["Integrate payment gateway",
"Write unit tests"]`, both cards in `todo`, target `done` — the winner is
the first candidate but its computed score is 50, not ≥ 70: "integration"
does not contain "integrate" as a substring (nor conversely), so only two
of the three search words match, giving (2/3)·60 = 40 plus the +10 bonus. -/
theorem C8_counterexample :
    (pickBest (candidatesWithScores boardPay "payment gateway integration" Col.done)).map
        (fun c => (c.task.id, c.score)) = some ("s1", 50)
    ∧ ¬ ((50 : ℚ) ≥ 70) :=
  ⟨by with_unfolding_all rfl, by norm_num⟩

/-- C8 as amended: the search selects the first candidate
("Integrate payment gateway", id "s1") with a computed score of 50 — above
the discard threshold 20 but below 70 — while "Write unit tests" scores 10
and is discarded, leaving a single retained candidate. -/
theorem C8_selects_first :
    candidatesWithScores boardPay "payment gateway integration" Col.done
      = [Cand.mk stickyPay 50 "todo"]
    ∧ pickBest (candidatesWithScores boardPay "payment gateway integration" Col.done)
      = some (Cand.mk stickyPay 50 "todo")
    ∧ candScore "payment gateway integration" Col.done stickyUnit = 10
    ∧ (20 : ℚ) < 50 :=
  ⟨by with_unfolding_all rfl, by with_unfolding_all rfl, by with_unfolding_all rfl,
    by norm_num⟩

/-! ### Claim C2 -/

/-- C2: when the winning candidate of a `move_task` operation is already in
the requested target column, the operation is a no-op: `moveTaskByText`
returns the board unchanged, and `processToolCall` publishes no new
snapshot and reports a no-move outcome (`success := false` with the
"either not found or already in ... column" message). -/
theorem C2_noop_when_already_there :
    ∀ (mcp : Bool) (jImpl : WhiteboardData → String → ToolArgs → ToolCallResult)
      (uImpl : WhiteboardData → ToolArgs → WhiteboardData)
      (d : WhiteboardData) (args : ToolArgs) (c : Cand),
    pickBest (candidatesWithScores d args.taskText args.targetColumn) = some c →
    c.currentColumn = colName args.targetColumn →
    moveTaskByText d args.taskText args.targetColumn args.reasoning = d
    ∧ (processToolCall mcp jImpl uImpl d "move_task" args).newData = none
    ∧ (processToolCall mcp jImpl uImpl d "move_task" args).response.success = false
    ∧ (processToolCall mcp jImpl uImpl d "move_task" args).response.message
        = "Could not move task with text \"" ++ args.taskText ++
            "\" - either not found or already in " ++
            jsToUpper (colName args.targetColumn) ++ " column" := by
  intro mcp jImpl uImpl d args c hpick hcol
  have hcore : moveTaskCore d args.taskText args.targetColumn = none := by
    unfold moveTaskCore
    rw [hpick]
    simp [hcol]
  refine ⟨?_, ?_⟩
  · unfold moveTaskByText
    rw [hcore]
    rfl
  · unfold processToolCall
    simp only [jiraToolNames, List.contains_cons, List.contains_nil, String.reduceEq,
      Bool.or_false, Bool.or_self, Bool.false_or, if_false, ite_false, reduceIte]
    rw [hcore]
    exact ⟨rfl, rfl, rfl⟩

/-- C2 witness: the one-card board `boardHome` whose sticky "alpha beta"
already sits in `todo`, searched with its exact text and target `todo`. -/
theorem C2_noop_witness :
    moveTaskByText boardHome "alpha beta" Col.todo "" = boardHome
    ∧ (processToolCall true jiraNoop updateNoop boardHome "move_task"
        { taskText := "alpha beta", targetColumn := Col.todo }).newData = none
    ∧ (processToolCall true jiraNoop updateNoop boardHome "move_task"
        { taskText := "alpha beta", targetColumn := Col.todo }).response.success = false := by
  have h := C2_noop_when_already_there true jiraNoop updateNoop boardHome
    { taskText := "alpha beta", targetColumn := Col.todo }
    (Cand.mk stickyHome 100 "todo")
    (by with_unfolding_all rfl) rfl
  exact ⟨h.1, h.2.1, h.2.2.1⟩

/-! ### Claim C3 -/

/-- C3, counterexample: on `boardFlow` — task sticky "alpha beta gamma" in
`todo`, plus a `flow` element at (460, 200) — moving the task to
`inprogress` assigns y = 270, although the count of other task-stickies in
the target column is 0, which under the claim's formula would give
y = 180 + 0·90 = 180: the source counts the non-sticky flow element because
it only tests `|x - targetX| < 50` and `180 ≤ y < 650`. -/
theorem C3_counterexample :
    (moveTaskByText boardFlow "alpha beta gamma" Col.inprogress "").elements.getD 0 elemDflt
      = { stickyAlpha with x := 460, y := 270, color := "orange" }
    ∧ claimTargetColumnCount boardFlow Col.inprogress "A" = 0
    ∧ (270 : ℚ) ≠ 180 + (0 : ℕ) * 90 :=
  ⟨by with_unfolding_all rfl, by with_unfolding_all rfl, by norm_num⟩

/-- C3 as amended: when `move_task` does move a task, the moved element gets
the target column's fixed x, the column's canonical color, and
y = 180 + 90 · (number of elements of ANY type, other than the moved one,
whose x is within 50 of the target x and whose y lies in [180, 650)) — not
the count of task-stickies in the target column; all other elements are
returned unchanged. -/
theorem C3_move_position :
    ∀ (d : WhiteboardData) (t rs : String) (tgt : Col) (c : Cand),
    pickBest (candidatesWithScores d t tgt) = some c →
    c.currentColumn ≠ colName tgt →
    (moveTaskByText d t tgt rs).elements.length = d.elements.length
    ∧ ∀ i, i < d.elements.length →
        (moveTaskByText d t tgt rs).elements.getD i elemDflt =
          (if (d.elements.getD i elemDflt).id = c.task.id then
            { d.elements.getD i elemDflt with
                x := (generateElementPosition 0 tgt).1
                y := (180 : ℚ) + (crowdCount d tgt c.task.id : ℚ) * 90
                color := canonicalColor tgt }
          else d.elements.getD i elemDflt) := by
  intro d t rs tgt c hpick hne
  unfold moveTaskByText moveTaskCore
  rw [hpick]
  simp only [if_neg hne, Option.getD_some]
  constructor
  · exact List.length_map _ _
  · intro i hi
    rw [List.getD_eq_getElem _ _ (by simpa using hi), List.getD_eq_getElem _ _ hi,
      List.getElem_map]
    rfl

/-- C3 witness: the amended position facts instantiated on `boardFlow`. -/
theorem C3_move_position_witness :
    (moveTaskByText boardFlow "alpha beta gamma" Col.inprogress "r").elements.length
      = boardFlow.elements.length
    ∧ (moveTaskByText boardFlow "alpha beta gamma" Col.inprogress "r").elements.getD 0 elemDflt
      = (if (boardFlow.elements.getD 0 elemDflt).id = (Cand.mk stickyAlpha 110 "todo").task.id
          then
            { boardFlow.elements.getD 0 elemDflt with
                x := (generateElementPosition 0 Col.inprogress).1
                y := (180 : ℚ) +
                  (crowdCount boardFlow Col.inprogress
                    (Cand.mk stickyAlpha 110 "todo").task.id : ℚ) * 90
                color := canonicalColor Col.inprogress }
          else boardFlow.elements.getD 0 elemDflt) := by
  have h := C3_move_position boardFlow "alpha beta gamma" "r" Col.inprogress
    (Cand.mk stickyAlpha 110 "todo") (by with_unfolding_all rfl) (by decide)
  exact ⟨h.1, h.2 0 (by decide)⟩

/-! ### Claim C4 -/

/-- C4 (documenting the divergence): a tool call whose name is outside the
dispatcher's allowlist — here "echo_task" — receives NO response from the
`onToolCall` handler of `useGeminiLive.ts` (the batch produces an empty
response list), even though `processToolCall` itself would produce the
`success := false` "Unknown tool" response the specification requires; the
handler never routes unknown names to it. -/
theorem C4_unknown_name_unanswered :
    ∀ (mcp : Bool) (jImpl : WhiteboardData → String → ToolArgs → ToolCallResult)
      (uImpl : WhiteboardData → ToolArgs → WhiteboardData)
      (board : WhiteboardData) (args : ToolArgs) (cid : String),
    onToolCallResponses mcp jImpl uImpl board [FunctionCall.mk cid "echo_task" args] = []
    ∧ (processToolCall mcp jImpl uImpl board "echo_task" args).response
        = ToolResponse.mk false "Unknown tool: echo_task" := by
  intro mcp jImpl uImpl board args cid
  constructor
  · simp [onToolCallResponses]
  · simp [processToolCall, jiraToolNames]

/-! ### Claim C9 -/

/-- Zipping a list with itself pairs every element with itself. -/
theorem zip_self {α : Type} (l : List α) : l.zip l = l.map (fun a => (a, a)) := by
  induction l with
  | nil => rfl
  | cons a t ih => simp [ih]

/-- Zipping a list with its image under `f` pairs every element with its
image. -/
theorem zip_self_map {α β : Type} (l : List α) (f : α → β) :
    l.zip (l.map f) = l.map (fun a => (a, f a)) := by
  induction l with
  | nil => rfl
  | cons a t ih => simp [ih]

/-- In a list whose keys (under `f`) are pairwise distinct, at most one
element carries any given key. -/
theorem countP_key_le_one {α β : Type} [DecidableEq β] (f : α → β) (l : List α)
    (hn : (l.map f).Nodup) (k : β) :
    l.countP (fun a => decide (f a = k)) ≤ 1 := by
  induction l with
  | nil => simp
  | cons a t ih =>
    simp only [List.map_cons, List.nodup_cons] at hn
    by_cases hk : f a = k
    · rw [List.countP_cons_of_pos _ _ (by simpa using hk)]
      have ht : t.countP (fun a => decide (f a = k)) = 0 := by
        refine List.countP_eq_zero.mpr ?_
        intro b hb hbk
        refine hn.1 ?_
        have hfb : f b = k := of_decide_eq_true hbk
        rw [hk, ← hfb]
        exact List.mem_map_of_mem f hb
      omega
    · rw [List.countP_cons_of_neg _ _ (by simpa using hk)]
      exact ih hn.2

/-- C9: a `move_task` invocation changes at most one element of the board
(assuming the identifier-uniqueness invariant of BoardState), and any
element it changes is a sticky with y < 650; non-sticky elements and
summary stickies at y ≥ 650 are never modified. -/
theorem C9_frame :
    ∀ (d : WhiteboardData) (t rs : String) (tgt : Col),
    (d.elements.map Element.id).Nodup →
    (moveTaskByText d t tgt rs).elements.length = d.elements.length
    ∧ (d.elements.zip (moveTaskByText d t tgt rs).elements).countP
        (fun p => decide (p.1 ≠ p.2)) ≤ 1
    ∧ ∀ p ∈ d.elements.zip (moveTaskByText d t tgt rs).elements,
        p.1 ≠ p.2 → p.1.etype = "sticky" ∧ p.1.y < 650 := by
  intro d t rs tgt hnodup
  have hid : d.elements.length = d.elements.length
      ∧ (d.elements.zip d.elements).countP (fun p => decide (p.1 ≠ p.2)) ≤ 1
      ∧ ∀ p ∈ d.elements.zip d.elements,
          p.1 ≠ p.2 → p.1.etype = "sticky" ∧ p.1.y < 650 := by
    refine ⟨rfl, ?_, ?_⟩
    · rw [zip_self, List.countP_map]
      have h0 : d.elements.countP
          ((fun p : Element × Element => decide (p.1 ≠ p.2)) ∘ (fun a => (a, a))) = 0 :=
        List.countP_eq_zero.mpr (fun a _ => by simp)
      omega
    · intro p hp hne
      rw [zip_self] at hp
      obtain ⟨a, _, rfl⟩ := List.mem_map.mp hp
      exact absurd rfl hne
  unfold moveTaskByText moveTaskCore
  cases hpick : pickBest (candidatesWithScores d t tgt) with
  | none => simpa using hid
  | some best =>
    by_cases hcol : best.currentColumn = colName tgt
    · simp only [hcol, if_true, Option.getD_none]
      exact ⟨trivial, hid.2.1, hid.2.2⟩
    · simp only [if_neg hcol, Option.getD_some]
      -- the moved element: `best.task` is a sticky task of the board
      have hbestmem : best ∈ candidatesWithScores d t tgt := (pickBest_spec _ _ hpick).1
      simp only [candidatesWithScores, List.mem_filter, List.mem_map] at hbestmem
      obtain ⟨⟨el, helmem, helbest⟩, _⟩ := hbestmem
      have htask : best.task = el := by rw [← helbest]
      have heltask : el ∈ d.elements ∧ el.etype = "sticky" ∧ el.y < 650 := by
        simp only [taskStickies, List.mem_filter] at helmem
        exact ⟨helmem.1, of_decide_eq_true helmem.2⟩
      refine ⟨List.length_map _ _, ?_, ?_⟩
      · rw [zip_self_map, List.countP_map]
        refine le_trans (List.countP_mono_left (q := fun a => decide (a.id = best.task.id)) ?_)
          (countP_key_le_one Element.id d.elements hnodup best.task.id)
        intro a _ hne
        by_contra haid
        simp only [Function.comp_apply, decide_eq_true_eq] at hne
        simp only [decide_eq_true_eq] at haid
        exact hne (by rw [if_neg haid])
      · intro p hp hne
        rw [zip_self_map] at hp
        obtain ⟨a, hamem, rfl⟩ := List.mem_map.mp hp
        simp only at hne
        have haid : a.id = best.task.id := by
          by_contra haid
          exact hne (by rw [if_neg haid])
        have := List.inj_on_of_nodup_map hnodup hamem (htask ▸ heltask.1) (htask ▸ haid)
        rw [this, htask]
        exact heltask.2

/-! ### Claim C5 -/

/-- One sample step preserves the framer invariant and accounts for exactly
one more sample. -/
theorem pushSample_wf (s : FramerState) (v : ℚ) (h : framerWF s) :
    framerWF (pushSample s v) ∧ framerSamples (pushSample s v) = framerSamples s + 1 := by
  obtain ⟨hb, he⟩ := h
  unfold pushSample framerWF framerSamples
  by_cases hfull : 2048 ≤ (s.buf ++ [convertSample v]).length
  · rw [if_pos hfull]
    simp only [List.length_append, List.length_cons, List.length_nil] at hfull
    refine ⟨⟨by simp, ?_⟩, ?_⟩
    · intro c hc
      rcases List.mem_append.mp hc with hc | hc
      · exact he c hc
      · rw [List.mem_singleton.mp hc]
        simp only [List.length_append, List.length_cons, List.length_nil]
        omega
    · simp only [List.length_append, List.length_cons, List.length_nil]
      omega
  · rw [if_neg hfull]
    simp only [List.length_append, List.length_cons, List.length_nil] at hfull ⊢
    exact ⟨⟨by omega, he⟩, by omega⟩

/-- Processing one frame preserves the invariant and accounts for the
frame's samples. -/
theorem processChunk_wf (frame : List ℚ) : ∀ (s : FramerState), framerWF s →
    framerWF (processChunk s frame)
    ∧ framerSamples (processChunk s frame) = framerSamples s + frame.length := by
  induction frame with
  | nil =>
    intro s h
    exact ⟨h, by simp [processChunk]⟩
  | cons v vs ih =>
    intro s h
    have h1 := pushSample_wf s v h
    have h2 := ih (pushSample s v) h1.1
    unfold processChunk at h2 ⊢
    rw [List.foldl_cons]
    refine ⟨h2.1, ?_⟩
    rw [h2.2, h1.2]
    simp only [List.length_cons]
    omega

/-- Feeding any frame sequence to a fresh framer keeps the invariant and
accounts for every sample. -/
theorem processFrames_wf (frames : List (List ℚ)) :
    framerWF (processFrames frames)
    ∧ framerSamples (processFrames frames) = totalSamples frames := by
  suffices hgen : ∀ (s : FramerState), framerWF s →
      framerWF (frames.foldl processChunk s)
      ∧ framerSamples (frames.foldl processChunk s) = framerSamples s + totalSamples frames by
    have h := hgen framerInit ⟨by simp [framerInit], by simp [framerInit]⟩
    unfold processFrames
    exact ⟨h.1, by rw [h.2]; simp [framerInit, framerSamples]⟩
  induction frames with
  | nil =>
    intro s h
    exact ⟨h, by simp [totalSamples]⟩
  | cons f fs ih =>
    intro s h
    have h1 := processChunk_wf f s h
    have h2 := ih (processChunk s f) h1.1
    rw [List.foldl_cons]
    refine ⟨h2.1, ?_⟩
    rw [h2.2, h1.2]
    simp only [totalSamples, List.map_cons, List.sum_cons]
    omega

/-- C5: for every sequence of frames fed to the capture framer, the number
of chunks posted equals `floor(total_samples / 2048)`, and every posted
chunk has byte length 2048 · 2 — a partially filled buffer is never posted
during capture. -/
theorem C5_capture_framing :
    ∀ (frames : List (List ℚ)),
    (processFrames frames).emitted.length = totalSamples frames / 2048
    ∧ ∀ i, i < (processFrames frames).emitted.length →
        chunkByteLength ((processFrames frames).emitted.getD i []) = 2048 * 2 := by
  intro frames
  obtain ⟨⟨hb, hc⟩, hs⟩ := processFrames_wf frames
  unfold framerSamples at hs
  constructor
  · omega
  · intro i hi
    have hmem : (processFrames frames).emitted.getD i [] ∈ (processFrames frames).emitted := by
      rw [List.getD_eq_getElem _ _ hi]
      exact List.getElem_mem hi
    unfold chunkByteLength
    rw [hc _ hmem]

/-- C5 witness: one frame of 2048 samples produces exactly one full chunk
of byte length 4096. -/
theorem C5_capture_framing_witness :
    (processFrames framesW).emitted.length = totalSamples framesW / 2048
    ∧ chunkByteLength ((processFrames framesW).emitted.getD 0 []) = 2048 * 2 := by
  refine ⟨(C5_capture_framing framesW).1, (C5_capture_framing framesW).2 0 ?_⟩
  rw [(C5_capture_framing framesW).1]
  unfold totalSamples framesW
  rw [List.map_cons, List.map_nil, List.length_replicate, List.sum_cons, List.sum_nil]
  norm_num

/-! ### Claim C6 -/

/-- Closed form of `n` overlapping `start()` invocations on a fresh
recorder. -/
theorem startInvoke_iterate (n : ℕ) :
    startInvoke^[n] recorderInit
      = ⟨if n = 0 then none else some (n - 1), n, n⟩ := by
  induction n with
  | zero => rfl
  | succ k ih =>
    rw [Function.iterate_succ_apply', ih]
    unfold startInvoke
    simp

/-- C6, counterexample: two `start()` calls issued while the first is still
completing perform TWO device acquisitions, not one — `start()` never
checks the existing in-flight `this.starting` before acquiring. -/
theorem C6_counterexample :
    (startInvoke (startInvoke recorderInit)).getUserMediaCalls = 2 ∧ (2 : ℕ) ≠ 1 :=
  ⟨rfl, by decide⟩

/-- C6 as amended: each concurrent `start()` invocation begins its own
device acquisition and overwrites the in-flight starting promise, so `n`
overlapping `start()` calls perform exactly `n` getUserMedia acquisitions,
`this.starting` ending as the promise installed by the last call. -/
theorem C6_each_start_acquires :
    ∀ (n : ℕ), (startInvoke^[n] recorderInit).getUserMediaCalls = n
      ∧ (0 < n → (startInvoke^[n] recorderInit).starting = some (n - 1)) := by
  intro n
  rw [startInvoke_iterate]
  refine ⟨rfl, ?_⟩
  intro h
  simp [Nat.pos_iff_ne_zero.mp h]

/-- C6 witness: the amended fact at n = 2. -/
theorem C6_each_start_acquires_witness :
    (startInvoke^[2] recorderInit).getUserMediaCalls = 2
    ∧ (startInvoke^[2] recorderInit).starting = some 1 :=
  ⟨(C6_each_start_acquires 2).1, (C6_each_start_acquires 2).2 (by decide)⟩

/-! ### Claim C7 -/

/-- C7: at full-scale positive input v = 1 the stored sample wraps: the
scaled value is 32768 (not representable in a signed 16-bit integer) and
the `Int16Array` store turns it into -32768, contradicting both the claim's
closed interval and the source's own comment
("convert float32 -1 to 1 to int16 -32768 to 32767"). -/
theorem C7_wraparound_at_full_scale :
    convertSample 1 = -32768
    ∧ jsTrunc ((1 : ℚ) * 32768) = 32768
    ∧ ((-32768 : ℤ) ≠ 32768) :=
  ⟨by with_unfolding_all rfl, by with_unfolding_all rfl, by decide⟩

/-! ### Claim C10 -/

/-- Decoding the base64 alphabet inverts encoding on every sextet. -/
theorem b64val_b64char (n : ℕ) (h : n < 64) : b64val (b64char n) = n := by
  unfold b64char b64val
  split_ifs <;> omega

/-- No alphabet character is the padding character 61 (`'='`). -/
theorem b64char_ne_pad (n : ℕ) (h : n < 64) : b64char n ≠ 61 := by
  unfold b64char
  split_ifs <;> omega

/-- Decoding inverts encoding, group by group (fuel-indexed induction on
the byte list). -/
theorem atob_btoa_aux :
    ∀ (n : ℕ) (l : List ℕ), l.length ≤ n → (∀ x ∈ l, x < 256) →
      atobBytes (btoaBytes l) = l := by
  intro n
  induction n with
  | zero =>
    intro l hl _
    rw [List.eq_nil_of_length_eq_zero (Nat.le_zero.mp hl)]
    rfl
  | succ k ih =>
    intro l hl hb
    match l with
    | [] => rfl
    | [b1] =>
      have h1 : b1 < 256 := hb b1 (by simp)
      simp only [btoaBytes, atobBytes]
      rw [if_pos trivial]
      rw [b64val_b64char _ (by omega), b64val_b64char _ (by omega)]
      simp only [List.cons.injEq, and_true]
      omega
    | [b1, b2] =>
      have h1 : b1 < 256 := hb b1 (by simp)
      have h2 : b2 < 256 := hb b2 (by simp)
      simp only [btoaBytes, atobBytes]
      rw [if_neg (b64char_ne_pad _ (by omega)), if_pos trivial]
      rw [b64val_b64char _ (by omega), b64val_b64char _ (by omega),
        b64val_b64char _ (by omega)]
      simp only [List.cons.injEq, and_true]
      constructor <;> omega
    | b1 :: b2 :: b3 :: rest =>
      have h1 : b1 < 256 := hb b1 (by simp)
      have h2 : b2 < 256 := hb b2 (by simp)
      have h3 : b3 < 256 := hb b3 (by simp)
      simp only [btoaBytes, atobBytes]
      rw [if_neg (b64char_ne_pad _ (by omega)), if_neg (b64char_ne_pad _ (by omega))]
      rw [b64val_b64char _ (by omega), b64val_b64char _ (by omega),
        b64val_b64char _ (by omega), b64val_b64char _ (by omega)]
      rw [ih rest (by simp only [List.length_cons] at hl; omega)
        (fun x hx => hb x (by simp [hx]))]
      simp only [List.cons.injEq, and_true]
      refine ⟨?_, ?_, ?_⟩ <;> omega

/-- C10: the outbound audio base64 framing is lossless — decoding the
encoding of any byte buffer returns exactly the same byte sequence. -/
theorem C10_base64_roundtrip :
    ∀ (b : List ℕ), (∀ x ∈ b, x < 256) →
      base64ToArrayBuffer (arrayBufferToBase64 b) = b := by
  intro b hb
  unfold base64ToArrayBuffer arrayBufferToBase64
  exact atob_btoa_aux b.length b le_rfl hb

/-- C10 witness: the round trip on the concrete buffer [0, 127, 255, 1, 2]. -/
theorem C10_base64_roundtrip_witness :
    (∀ x ∈ [0, 127, 255, 1, 2], x < 256)
    ∧ base64ToArrayBuffer (arrayBufferToBase64 [0, 127, 255, 1, 2]) = [0, 127, 255, 1, 2] :=
  ⟨by decide, C10_base64_roundtrip _ (by decide)⟩

/-- C9 witness: the frame fact instantiated on `boardFlow`, whose element
identifiers are pairwise distinct. -/
theorem C9_frame_witness :
    (moveTaskByText boardFlow "alpha beta gamma" Col.inprogress "r").elements.length
      = boardFlow.elements.length
    ∧ (boardFlow.elements.zip
        (moveTaskByText boardFlow "alpha beta gamma" Col.inprogress "r").elements).countP
        (fun p => decide (p.1 ≠ p.2)) ≤ 1 := by
  have h := C9_frame boardFlow "alpha beta gamma" "r" Col.inprogress (by decide)
  exact ⟨h.1, h.2.1⟩
